import Mathlib

/-!
Verification of the Detective Quest repository (C sources) against its
natural-language specification.

The program is shallowly embedded: C strings become lists of byte values
(`List Nat`, one entry per non-null byte); `strcmp` becomes the
lexicographic comparison `cmp`; the clue BST (`PistaNode`), the fixed-size
chained hash table of suspects (`SuspeitoNode* tabela[11]`), the
accusation phase (`verificarSuspeitoFinal`) and the interactive
exploration loops (`explorarMansao` from the master variant,
`explorarSalas` from the novice variant) are translated function by
function from the source.  Console input is modelled as a list of the
characters `scanf(" %c", ...)` would deliver (one per line, input-buffer
flushing elided), and a fuel parameter bounds the interactive loops.
`strncpy` bounded copies are kept: names are truncated to 63 bytes
(`MAX_NOME - 1`) and clue texts to 127 bytes (`MAX_PISTA - 1`).
-/

namespace DetectiveQuest

/-- Bytes of a C string: the sequence of (non-null) byte values. -/
abbrev Bytes := List Nat

/-- Model of `strcmp` on byte sequences: compare byte by byte; the first
smaller byte decides; a strict prefix (earlier null terminator) is
smaller. -/
def cmp : Bytes → Bytes → Ordering
  | [], [] => .eq
  | [], _ :: _ => .lt
  | _ :: _, [] => .gt
  | a :: s, b :: t => if a < b then .lt else if b < a then .gt else cmp s t

/-- Model of `PistaNode`: the clue BST.  `node l p r` holds the stored clue
text `p` (at most 127 bytes, after `strncpy`) with subtrees `l` and `r`;
`nil` is the NULL pointer. -/
inductive PistaTree : Type
  | nil : PistaTree
  | node : PistaTree → Bytes → PistaTree → PistaTree
deriving DecidableEq

/-- Model of `inserirPista` (master variant): empty text is not inserted;
otherwise descend by `strcmp`, suppress exact duplicates, and at a NULL
position allocate a node whose stored text is the `strncpy` truncation of
`pista` to 127 bytes (`MAX_PISTA - 1`). -/
def inserirPista : PistaTree → Bytes → PistaTree
  | raiz, [] => raiz
  | .nil, b :: r => .node .nil ((b :: r).take 127) .nil
  | .node e p d, b :: r =>
    match cmp (b :: r) p with
    | .lt => .node (inserirPista e (b :: r)) p d
    | .gt => .node e p (inserirPista d (b :: r))
    | .eq => .node e p d

/-- Model of `exibirPistas`: the in-order traversal, returned as the list
of clue texts printed. -/
def exibirPistas : PistaTree → List Bytes
  | .nil => []
  | .node e p d => exibirPistas e ++ p :: exibirPistas d

/-- Every stored text of the tree satisfies `P`. -/
def ForallTree (P : Bytes → Prop) : PistaTree → Prop
  | .nil => True
  | .node e p d => ForallTree P e ∧ P p ∧ ForallTree P d

/-- Strict search-tree invariant: texts to the left are `strcmp`-smaller,
texts to the right are `strcmp`-greater.  Holds for stores built from
texts that fit the 127-byte node buffer. -/
def isBST : PistaTree → Prop
  | .nil => True
  | .node e p d =>
    isBST e ∧ isBST d ∧
      ForallTree (fun x => cmp x p = .lt) e ∧
      ForallTree (fun x => cmp p x = .lt) d

/-- Weak search-tree invariant maintained by `inserirPista` for arbitrary
(possibly over-long, hence truncated) inputs: stored texts fit the node
buffer, texts to the left are strictly smaller, texts to the right are
not smaller. -/
def wfT : PistaTree → Prop
  | .nil => True
  | .node e p d =>
    p.length ≤ 127 ∧ wfT e ∧ wfT d ∧
      ForallTree (fun x => cmp x p = .lt) e ∧
      ForallTree (fun x => cmp x p ≠ .lt) d

/-- Bucket count of the suspect hash table (`#define TAM_HASH 11`). -/
abbrev TAM_HASH : Nat := 11

/-- Model of `SuspeitoNode`: one chain entry of the hash table, holding a
clue text (key, at most 127 bytes stored) and a suspect name (value, at
most 63 bytes stored). -/
structure SuspeitoNode where
  pista : Bytes
  suspeito : Bytes
deriving DecidableEq

/-- Model of `SuspeitoNode* tabela[TAM_HASH]`: each bucket is the chain
hanging off that slot, most recent entry first. -/
abbrev Tabela := Fin TAM_HASH → List SuspeitoNode

/-- Model of `inicializarHash`: every bucket is the NULL (empty) chain. -/
def inicializarHash : Tabela := fun _ => []

/-- Model of `hash`: byte values accumulated in a C `unsigned int`
(32 bits, so every addition wraps modulo `2 ^ 32`), then reduced modulo
`TAM_HASH`. -/
def hash (pista : Bytes) : Nat :=
  (pista.foldl (fun soma b => (soma + b) % 4294967296) 0) % TAM_HASH

/-- The hash value as a bucket index. -/
def hashFin (pista : Bytes) : Fin TAM_HASH :=
  ⟨hash pista, by unfold hash TAM_HASH; omega⟩

/-- Byte values of the sentinel C string literal `"Desconhecido"`. -/
def desconhecido : Bytes := [68, 101, 115, 99, 111, 110, 104, 101, 99, 105, 100, 111]

/-- Model of `inserirNaHash`: NULL key or value is a no-op; otherwise a
new entry (fields `strncpy`-truncated to 127 / 63 bytes) is prepended to
the chain of bucket `hash pista`. -/
def inserirNaHash (tabela : Tabela) (pista suspeito : Option Bytes) : Tabela :=
  match pista, suspeito with
  | some p, some s =>
    fun j => if j = hashFin p then ⟨p.take 127, s.take 63⟩ :: tabela j
      else tabela j
  | _, _ => tabela

/-- The chain scan inside `encontrarSuspeito`: first exact key match from
the head wins; otherwise the sentinel. -/
def buscaBucket : List SuspeitoNode → Bytes → Bytes
  | [], _ => desconhecido
  | cur :: resto, p => if cur.pista = p then cur.suspeito else buscaBucket resto p

/-- Model of `encontrarSuspeito`: NULL key gives the sentinel; otherwise
scan the chain of bucket `hash pista`. -/
def encontrarSuspeito (tabela : Tabela) (pista : Option Bytes) : Bytes :=
  match pista with
  | none => desconhecido
  | some p => buscaBucket (tabela (hashFin p)) p

/-- Model of `contarPistasPorSuspeitoNaBST` (and its local recursive
helper `contadorRec`): traverse the clue BST and count the clues whose
suspect lookup matches `suspeito` exactly (`strcmp == 0`). -/
def contarPistasPorSuspeitoNaBST (tabela : Tabela) :
    PistaTree → Bytes → Nat
  | .nil, _ => 0
  | .node e p d, suspeito =>
    contarPistasPorSuspeitoNaBST tabela e suspeito +
      (if encontrarSuspeito tabela (some p) = suspeito then 1 else 0) +
      contarPistasPorSuspeitoNaBST tabela d suspeito

/-- The three verdicts printed by `verificarSuspeitoFinal`. -/
inductive Veredito : Type
  | confirmada
  | fragil
  | semFundamento
deriving DecidableEq

/-- Observable outcome of the accusation phase: `fgets` failure, abort on
empty name, or a verdict together with the evidence count. -/
inductive ResultadoAcusacao : Type
  | entradaInvalida
  | abortada
  | julgada (veredito : Veredito) (total : Nat)
deriving DecidableEq

/-- Model of `verificarSuspeitoFinal`.  `linha` is the accusation line as
delivered by `fgets` into a 64-byte buffer with the newline stripped
(`none` models `fgets` returning NULL): at most 63 bytes of the typed
line are kept.  An empty name aborts; otherwise the collected clues are
counted and classified with threshold 2. -/
def verificarSuspeitoFinal (tabela : Tabela) (raizPistas : PistaTree)
    (linha : Option Bytes) : ResultadoAcusacao :=
  match linha with
  | none => .entradaInvalida
  | some texto =>
    let nome := texto.take 63
    if nome = [] then .abortada
    else
      let total := contarPistasPorSuspeitoNaBST tabela raizPistas nome
      if 2 ≤ total then .julgada .confirmada total
      else if 0 < total then .julgada .fragil total
      else .julgada .semFundamento total

/-- Model of `Sala` (master variant): a room with a name, an optional
clue (empty list = no clue) and two children; `nil` is NULL. -/
inductive Sala : Type
  | nil : Sala
  | node (nome pista : Bytes) (esquerda direita : Sala) : Sala
deriving DecidableEq

/-- Model of `criarSala` (master variant): `strncpy` bounds the stored
name to 63 and the stored clue to 127 bytes; children start NULL. -/
def criarSala (nome pista : Bytes) : Sala :=
  .node (nome.take 63) (pista.take 127) .nil .nil

/-- How an exploration run ended: the loop returned (`encerrada`), the
program is blocked reading a navigation command (`aguardaEntrada`), or
the fuel bound was reached (`semPasso`). -/
inductive StatusExploracao : Type
  | encerrada
  | aguardaEntrada
  | semPasso
deriving DecidableEq

/-- Result of running `explorarMansao`: how it stopped, the clue store,
and the unread input. -/
structure SaidaExploracao where
  status : StatusExploracao
  pistas : PistaTree
  restante : List Nat
deriving DecidableEq

/-- Model of `explorarMansao` (master variant).  Input is the list of
command characters `scanf(" %c")` yields, one per line.  On each visit
the room's non-empty clue is inserted into the clue BST, then a command
is read: `e`/`E` (101/69) moves left when a left room exists and
otherwise reports and stays; `d`/`D` (100/68) symmetrically; `s`/`S`
(115/83) ends the exploration; anything else reports and stays.  There
is no leaf check: a leaf room still prompts for a command. -/
def explorarMansao : Nat → Sala → PistaTree → List Nat → SaidaExploracao
  | 0, _, pistas, entrada => ⟨.semPasso, pistas, entrada⟩
  | _ + 1, .nil, pistas, entrada => ⟨.encerrada, pistas, entrada⟩
  | fuel + 1, .node nome pista e d, pistas, entrada =>
    let pistas1 := if pista = [] then pistas else inserirPista pistas pista
    match entrada with
    | [] => ⟨.aguardaEntrada, pistas1, []⟩
    | c :: resto =>
      if c = 101 ∨ c = 69 then
        if e = .nil then explorarMansao fuel (.node nome pista e d) pistas1 resto
        else explorarMansao fuel e pistas1 resto
      else if c = 100 ∨ c = 68 then
        if d = .nil then explorarMansao fuel (.node nome pista e d) pistas1 resto
        else explorarMansao fuel d pistas1 resto
      else if c = 115 ∨ c = 83 then ⟨.encerrada, pistas1, resto⟩
      else explorarMansao fuel (.node nome pista e d) pistas1 resto

/-- Model of `Sala` (novice variant `detetive_quest.c`): rooms carry only
a name. -/
inductive SalaN : Type
  | nil : SalaN
  | node (nome : Bytes) (esquerda direita : SalaN) : SalaN
deriving DecidableEq

/-- Result of running `explorarSalas`: how it stopped and the unread
input. -/
structure SaidaSalas where
  status : StatusExploracao
  restante : List Nat
deriving DecidableEq

/-- Model of `explorarSalas` (novice variant): before reading any
command, a room with no left and no right child ends the exploration;
otherwise navigation works as in `explorarMansao`. -/
def explorarSalas : Nat → SalaN → List Nat → SaidaSalas
  | 0, _, entrada => ⟨.semPasso, entrada⟩
  | _ + 1, .nil, entrada => ⟨.encerrada, entrada⟩
  | fuel + 1, .node nome e d, entrada =>
    if e = .nil ∧ d = .nil then ⟨.encerrada, entrada⟩
    else
      match entrada with
      | [] => ⟨.aguardaEntrada, []⟩
      | c :: resto =>
        if c = 101 ∨ c = 69 then
          if e = .nil then explorarSalas fuel (.node nome e d) resto
          else explorarSalas fuel e resto
        else if c = 100 ∨ c = 68 then
          if d = .nil then explorarSalas fuel (.node nome e d) resto
          else explorarSalas fuel d resto
        else if c = 115 ∨ c = 83 then ⟨.encerrada, resto⟩
        else explorarSalas fuel (.node nome e d) resto

/-- A small sample Suspect Index: clue `[1]` and clue `[2]` both map to
suspect `[9]` (two pieces of evidence for the same suspect). -/
def tabelaExemplo : Tabela :=
  inserirNaHash (inserirNaHash inicializarHash (some [1]) (some [9]))
    (some [2]) (some [9])

/-- A small sample Clue Store holding clues `[1]` and `[2]`. -/
def pistasExemplo : PistaTree :=
  inserirPista (inserirPista .nil [1]) [2]

theorem cmp_self_eq : ∀ s : Bytes, cmp s s = .eq
  | [] => rfl
  | a :: s => by
    unfold cmp
    rw [if_neg (Nat.lt_irrefl a), if_neg (Nat.lt_irrefl a)]
    exact cmp_self_eq s

theorem cmp_lt_trans : ∀ {a b c : Bytes},
    cmp a b = .lt → cmp b c = .lt → cmp a c = .lt
  | [], [], _, h1, _ => by simp [cmp] at h1
  | [], _ :: _, [], _, h2 => by simp [cmp] at h2
  | [], _ :: _, _ :: _, _, _ => rfl
  | _ :: _, [], _, h1, _ => by simp [cmp] at h1
  | _ :: _, _ :: _, [], _, h2 => by simp [cmp] at h2
  | x :: s, y :: t, z :: u, h1, h2 => by
    unfold cmp at h1 h2 ⊢
    by_cases hxy : x < y
    · by_cases hyz : y < z
      · rw [if_pos (by omega : x < z)]
      · rw [if_neg hyz] at h2
        by_cases hzy : z < y
        · rw [if_pos hzy] at h2; exact absurd h2 (by simp)
        · rw [if_pos (by omega : x < z)]
    · rw [if_neg hxy] at h1
      by_cases hyx : y < x
      · rw [if_pos hyx] at h1; exact absurd h1 (by simp)
      · rw [if_neg hyx] at h1
        by_cases hyz : y < z
        · rw [if_pos (by omega : x < z)]
        · rw [if_neg hyz] at h2
          by_cases hzy : z < y
          · rw [if_pos hzy] at h2; exact absurd h2 (by simp)
          · rw [if_neg hzy] at h2
            rw [if_neg (by omega : ¬ x < z), if_neg (by omega : ¬ z < x)]
            exact cmp_lt_trans h1 h2

theorem cmp_gt_iff_lt : ∀ {a b : Bytes}, cmp a b = .gt ↔ cmp b a = .lt
  | [], [] => by simp [cmp]
  | [], _ :: _ => by simp [cmp]
  | _ :: _, [] => by simp [cmp]
  | x :: s, y :: t => by
    unfold cmp
    by_cases h1 : x < y
    · rw [if_pos h1, if_neg (by omega : ¬ y < x), if_pos h1]; simp
    · by_cases h2 : y < x
      · rw [if_neg h1, if_pos h2, if_pos h2]; simp
      · rw [if_neg h1, if_neg h2, if_neg h2, if_neg h1]
        exact cmp_gt_iff_lt

/-- Truncating the probe preserves strict smallness, provided the stored
text fits the same bound. -/
theorem cmp_take_lt : ∀ (n : Nat) {p k : Bytes},
    k.length ≤ n → cmp p k = .lt → cmp (p.take n) k = .lt
  | _, [], [], _, h => by simp [cmp] at h
  | _, [], _ :: _, _, _ => by simp [cmp]
  | _, _ :: _, [], _, h => by simp [cmp] at h
  | 0, _ :: _, _ :: _, hn, _ => by simp at hn
  | n + 1, x :: s, y :: t, hn, h => by
    unfold cmp at h ⊢
    simp only [List.take_succ_cons]
    by_cases h1 : x < y
    · rw [if_pos h1]
    · rw [if_neg h1] at h ⊢
      by_cases h2 : y < x
      · rw [if_pos h2] at h; exact absurd h (by simp)
      · rw [if_neg h2] at h ⊢
        exact cmp_take_lt n (by simpa using hn) h

/-- Truncating the probe of a strictly larger text never makes it
strictly smaller than a stored text that fits the bound. -/
theorem cmp_take_gt_ne_lt : ∀ (n : Nat) {p k : Bytes},
    k.length ≤ n → cmp p k = .gt → cmp (p.take n) k ≠ .lt
  | _, [], [], _, h => by simp [cmp] at h
  | _, [], _ :: _, _, h => by simp [cmp] at h
  | 0, _ :: _, [], _, _ => by simp [cmp]
  | _ + 1, _ :: _, [], _, _ => by simp [cmp]
  | 0, _ :: _, _ :: _, hn, _ => by simp at hn
  | n + 1, x :: s, y :: t, hn, h => by
    unfold cmp at h ⊢
    simp only [List.take_succ_cons]
    by_cases h1 : x < y
    · rw [if_pos h1] at h; exact absurd h (by simp)
    · rw [if_neg h1] at h ⊢
      by_cases h2 : y < x
      · rw [if_pos h2]; simp
      · rw [if_neg h2] at h ⊢
        exact cmp_take_gt_ne_lt n (by simpa using hn) h

/-- Inserting the empty text is a no-op (`pista[0] == '\0'` guard). -/
theorem inserirPista_empty : ∀ t : PistaTree, inserirPista t [] = t
  | .nil => rfl
  | .node _ _ _ => rfl

/-- Inserting a non-empty text into the empty store allocates a single
truncated node. -/
theorem inserirPista_nil {p : Bytes} (he : p ≠ []) :
    inserirPista .nil p = .node .nil (p.take 127) .nil := by
  cases p with
  | nil => exact absurd rfl he
  | cons b r => rfl

/-- Unfolding equation: strictly smaller texts descend left. -/
theorem inserirPista_lt {p q : Bytes} {e d : PistaTree}
    (he : p ≠ []) (hc : cmp p q = .lt) :
    inserirPista (.node e q d) p = .node (inserirPista e p) q d := by
  cases p with
  | nil => exact absurd rfl he
  | cons b r => simp only [inserirPista]; rw [hc]

/-- Unfolding equation: strictly greater texts descend right. -/
theorem inserirPista_gt {p q : Bytes} {e d : PistaTree}
    (he : p ≠ []) (hc : cmp p q = .gt) :
    inserirPista (.node e q d) p = .node e q (inserirPista d p) := by
  cases p with
  | nil => exact absurd rfl he
  | cons b r => simp only [inserirPista]; rw [hc]

/-- Unfolding equation: an exact duplicate is suppressed. -/
theorem inserirPista_dup {p q : Bytes} {e d : PistaTree}
    (he : p ≠ []) (hc : cmp p q = .eq) :
    inserirPista (.node e q d) p = .node e q d := by
  cases p with
  | nil => exact absurd rfl he
  | cons b r => simp only [inserirPista]; rw [hc]

theorem forallTree_insert {P : Bytes → Prop} {t : PistaTree} {p : Bytes}
    (ht : ForallTree P t) (hp : P (p.take 127)) :
    ForallTree P (inserirPista t p) := by
  induction t with
  | nil =>
    by_cases he : p = []
    · rw [he, inserirPista_empty]; exact ht
    · rw [inserirPista_nil he]
      exact ⟨trivial, hp, trivial⟩
  | node e q d ihe ihd =>
    by_cases he : p = []
    · rw [he, inserirPista_empty]; exact ht
    · obtain ⟨h1, h2, h3⟩ := ht
      cases hc : cmp p q with
      | lt => rw [inserirPista_lt he hc]; exact ⟨ihe h1, h2, h3⟩
      | gt => rw [inserirPista_gt he hc]; exact ⟨h1, h2, ihd h3⟩
      | eq => rw [inserirPista_dup he hc]; exact ⟨h1, h2, h3⟩

theorem forallTree_mem {P : Bytes → Prop} :
    ∀ {t : PistaTree}, ForallTree P t → ∀ {x : Bytes},
      x ∈ exibirPistas t → P x
  | .nil, _, x, hx => by simp [exibirPistas] at hx
  | .node e p d, ⟨h1, h2, h3⟩, x, hx => by
    simp only [exibirPistas, List.mem_append, List.mem_cons] at hx
    rcases hx with hx | hx | hx
    · exact forallTree_mem h1 hx
    · exact hx ▸ h2
    · exact forallTree_mem h3 hx

theorem isBST_insert {t : PistaTree} {p : Bytes}
    (hp : p.length ≤ 127) (ht : isBST t) : isBST (inserirPista t p) := by
  induction t with
  | nil =>
    by_cases he : p = []
    · rw [he, inserirPista_empty]; exact ht
    · rw [inserirPista_nil he, List.take_of_length_le hp]
      exact ⟨trivial, trivial, trivial, trivial⟩
  | node e q d ihe ihd =>
    by_cases he : p = []
    · rw [he, inserirPista_empty]; exact ht
    · obtain ⟨h1, h2, h3, h4⟩ := ht
      cases hc : cmp p q with
      | lt =>
        rw [inserirPista_lt he hc]
        exact ⟨ihe h1, h2,
          forallTree_insert h3 (by rw [List.take_of_length_le hp]; exact hc),
          h4⟩
      | gt =>
        rw [inserirPista_gt he hc]
        exact ⟨h1, ihd h2, h3,
          forallTree_insert h4 (by
            rw [List.take_of_length_le hp]; exact cmp_gt_iff_lt.mp hc)⟩
      | eq => rw [inserirPista_dup he hc]; exact ⟨h1, h2, h3, h4⟩

theorem pairwise_exibir :
    ∀ {t : PistaTree}, isBST t →
      (exibirPistas t).Pairwise (fun a b => cmp a b = .lt)
  | .nil, _ => by simp [exibirPistas]
  | .node e p d, ⟨he, hd, hfe, hfd⟩ => by
    simp only [exibirPistas]
    rw [List.pairwise_append]
    refine ⟨pairwise_exibir he, ?_, ?_⟩
    · rw [List.pairwise_cons]
      exact ⟨fun b hb => forallTree_mem hfd hb, pairwise_exibir hd⟩
    · intro a ha b hb
      rcases List.mem_cons.mp hb with rfl | hb
      · exact forallTree_mem hfe ha
      · exact cmp_lt_trans (forallTree_mem hfe ha) (forallTree_mem hfd hb)

theorem wfT_insert {t : PistaTree} {p : Bytes} (ht : wfT t) :
    wfT (inserirPista t p) := by
  induction t with
  | nil =>
    by_cases he : p = []
    · rw [he, inserirPista_empty]; exact ht
    · rw [inserirPista_nil he]
      exact ⟨by simp [List.length_take], trivial, trivial, trivial, trivial⟩
  | node e q d ihe ihd =>
    by_cases he : p = []
    · rw [he, inserirPista_empty]; exact ht
    · obtain ⟨hq, h1, h2, h3, h4⟩ := ht
      cases hc : cmp p q with
      | lt =>
        rw [inserirPista_lt he hc]
        exact ⟨hq, ihe h1, h2, forallTree_insert h3 (cmp_take_lt 127 hq hc),
          h4⟩
      | gt =>
        rw [inserirPista_gt he hc]
        exact ⟨hq, h1, ihd h2, h3,
          forallTree_insert h4 (cmp_take_gt_ne_lt 127 hq hc)⟩
      | eq => rw [inserirPista_dup he hc]; exact ⟨hq, h1, h2, h3, h4⟩

/-- Reinserting a text that is stored verbatim somewhere in a
well-formed store changes nothing. -/
theorem inserirPista_mem_noop {t : PistaTree} {x : Bytes} (ht : wfT t)
    (hx : x ∈ exibirPistas t) : inserirPista t x = t := by
  induction t with
  | nil => simp [exibirPistas] at hx
  | node e q d ihe ihd =>
    obtain ⟨hq, h1, h2, h3, h4⟩ := ht
    by_cases he : x = []
    · rw [he, inserirPista_empty]
    · simp only [exibirPistas, List.mem_append, List.mem_cons] at hx
      cases hc : cmp x q with
      | eq => exact inserirPista_dup he hc
      | lt =>
        rw [inserirPista_lt he hc]
        rcases hx with hx | hx | hx
        · rw [ihe h1 hx]
        · rw [hx] at hc; rw [cmp_self_eq q] at hc; exact absurd hc (by simp)
        · exact absurd hc (forallTree_mem h4 hx)
      | gt =>
        rw [inserirPista_gt he hc]
        rcases hx with hx | hx | hx
        · rw [forallTree_mem h3 hx] at hc; exact absurd hc (by simp)
        · rw [hx] at hc; rw [cmp_self_eq q] at hc; exact absurd hc (by simp)
        · rw [ihd h2 hx]

/-- Immediately reinserting a text that fits the node buffer is a no-op,
for any store. -/
theorem inserirPista_idem {p : Bytes} (hp : p.length ≤ 127) :
    ∀ t : PistaTree, inserirPista (inserirPista t p) p = inserirPista t p := by
  by_cases he : p = []
  · intro t; rw [he, inserirPista_empty, inserirPista_empty]
  · intro t
    induction t with
    | nil =>
      rw [inserirPista_nil he, List.take_of_length_le hp,
        inserirPista_dup he (cmp_self_eq p)]
    | node e q d ihe ihd =>
      cases hc : cmp p q with
      | lt => rw [inserirPista_lt he hc, inserirPista_lt he hc, ihe]
      | gt => rw [inserirPista_gt he hc, inserirPista_gt he hc, ihd]
      | eq => rw [inserirPista_dup he hc, inserirPista_dup he hc]

theorem isBST_foldl :
    ∀ (ps : List Bytes) (t : PistaTree), isBST t →
      (∀ p ∈ ps, p.length ≤ 127) → isBST (ps.foldl inserirPista t)
  | [], _, ht, _ => ht
  | p :: ps, t, ht, hps => by
    rw [List.foldl_cons]
    exact isBST_foldl ps _ (isBST_insert (hps p (by simp)) ht)
      fun q hq => hps q (by simp [hq])

theorem wfT_foldl :
    ∀ (ps : List Bytes) (t : PistaTree), wfT t →
      wfT (ps.foldl inserirPista t)
  | [], _, ht => ht
  | p :: ps, t, ht => by
    rw [List.foldl_cons]
    exact wfT_foldl ps _ (wfT_insert ht)

/-- The wrapping 32-bit accumulation of `hash` computes the plain sum
modulo `2 ^ 32`. -/
theorem foldl_wrap : ∀ (p : Bytes) (a : Nat), a < 4294967296 →
    p.foldl (fun soma b => (soma + b) % 4294967296) a =
      (a + p.sum) % 4294967296
  | [], a, ha => by simp [Nat.mod_eq_of_lt ha]
  | b :: t, a, ha => by
    rw [List.foldl_cons, foldl_wrap t _ (Nat.mod_lt _ (by omega)),
      List.sum_cons, Nat.mod_add_mod, Nat.add_assoc]

theorem hash_eq (p : Bytes) :
    hash p = (p.sum % 4294967296) % TAM_HASH := by
  unfold hash
  rw [foldl_wrap p 0 (by omega), Nat.zero_add]

theorem sum_replicate_one : ∀ n : Nat, (List.replicate n (1 : Nat)).sum = n
  | 0 => rfl
  | n + 1 => by
    rw [List.replicate_succ, List.sum_cons, sum_replicate_one n]
    omega

/-- A chain containing no exact key match scans to the sentinel. -/
theorem buscaBucket_not_found :
    ∀ {chain : List SuspeitoNode} {p : Bytes},
      (∀ cur ∈ chain, cur.pista ≠ p) → buscaBucket chain p = desconhecido
  | [], _, _ => rfl
  | cur :: resto, p, h => by
    simp only [buscaBucket]
    rw [if_neg (h cur (by simp))]
    exact buscaBucket_not_found fun r hr => h r (by simp [hr])

/-- The BST match counter is the match count of the in-order
enumeration. -/
theorem contar_eq_countP (tabela : Tabela) :
    ∀ (t : PistaTree) (s : Bytes),
      contarPistasPorSuspeitoNaBST tabela t s =
        (exibirPistas t).countP
          (fun k => decide (encontrarSuspeito tabela (some k) = s))
  | .nil, _ => rfl
  | .node e p d, s => by
    simp only [contarPistasPorSuspeitoNaBST, exibirPistas]
    rw [List.countP_append, List.countP_cons, contar_eq_countP tabela e s,
      contar_eq_countP tabela d s]
    by_cases h : encontrarSuspeito tabela (some p) = s <;> simp [h] <;> omega

/-- The clue-collection guard of the exploration loop agrees with plain
`inserirPista`, which ignores empty texts itself. -/
theorem colhePista_eq (pistas : PistaTree) (pista : Bytes) :
    (if pista = [] then pistas else inserirPista pistas pista) =
      inserirPista pistas pista := by
  by_cases h : pista = []
  · rw [if_pos h, h, inserirPista_empty]
  · rw [if_neg h]

/-- Claim C6: a clue text stored nowhere in the Suspect Index looks up to
the sentinel `"Desconhecido"`; the lookup is total and never fails. -/
theorem claim_C6_lookup_sentinel (tabela : Tabela) (p : Bytes)
    (h : ∀ i : Fin TAM_HASH, ∀ cur ∈ tabela i, cur.pista ≠ p) :
    encontrarSuspeito tabela (some p) = desconhecido := by
  have hb : buscaBucket (tabela (hashFin p)) p = desconhecido :=
    buscaBucket_not_found fun cur hcur => h (hashFin p) cur hcur
  exact hb

/-- Witness for claim C6 at the freshly initialized (all-NULL) table and
the one-byte text `"a"`. -/
theorem claim_C6_witness :
    encontrarSuspeito inicializarHash (some [97]) = desconhecido :=
  claim_C6_lookup_sentinel inicializarHash [97]
    (fun _ cur hcur => absurd hcur (List.not_mem_nil cur))

/-- Claim C10: `inserirNaHash` with a NULL clue text or NULL suspect name
leaves the table untouched, and `encontrarSuspeito` with a NULL clue text
returns the sentinel instead of failing. -/
theorem claim_C10_null_args (tabela : Tabela) (p s : Option Bytes) :
    inserirNaHash tabela none s = tabela ∧
      inserirNaHash tabela p none = tabela ∧
      encontrarSuspeito tabela none = desconhecido := by
  refine ⟨?_, ?_, rfl⟩
  · cases s <;> rfl
  · cases p <;> rfl

/-- Claim C8 counterexample: the hash is computed in a 32-bit
accumulator, so on a text whose byte sum reaches `2 ^ 32` (here
`2 ^ 32` bytes of value 1) the result differs from the byte sum modulo
the bucket count (0 versus 4). -/
theorem claim_C8_counterexample :
    hash (List.replicate 4294967296 1) ≠
      (List.replicate 4294967296 1).sum % TAM_HASH := by
  rw [hash_eq, sum_replicate_one]
  decide

/-- Claim C8 amended: `hash` is the byte sum reduced modulo `2 ^ 32`
(the `unsigned int` accumulator) and then modulo the bucket count 11; it
is always within `[0, 11)`, and it equals the plain byte sum modulo 11
whenever the byte sum fits 32 bits (true of every text shorter than
about 16.8 million bytes, hence of every text in the program).
Determinism is inherent: the model is a pure function of the text. -/
theorem claim_C8_amended (p : Bytes) :
    hash p = (p.sum % 4294967296) % TAM_HASH ∧ hash p < TAM_HASH ∧
      (p.sum < 4294967296 → hash p = p.sum % TAM_HASH) := by
  refine ⟨hash_eq p, by unfold hash TAM_HASH; omega, fun h => ?_⟩
  rw [hash_eq p, Nat.mod_eq_of_lt h]

/-- Witness for claim C8 at the two-byte text `[5, 6]`. -/
theorem claim_C8_witness :
    hash [5, 6] = ([5, 6] : Bytes).sum % 4294967296 % TAM_HASH ∧
      hash [5, 6] < TAM_HASH ∧ hash [5, 6] = ([5, 6] : Bytes).sum % TAM_HASH :=
  ⟨(claim_C8_amended [5, 6]).1, (claim_C8_amended [5, 6]).2.1,
    (claim_C8_amended [5, 6]).2.2 (by decide)⟩

/-- Claim C1: the accusation verdict is a pure function of the match
count — the number of collected clues whose Suspect Index lookup equals
the accused name byte-wise, independent of enumeration order: at least 2
gives Confirmed, exactly 1 gives Weak, 0 gives Unfounded.  The accused
name is non-empty (an empty name aborts before classification) and fits
the 63-byte accusation buffer. -/
theorem claim_C1_accusation_pure_count (tabela : Tabela)
    (raizPistas : PistaTree) (nome : Bytes)
    (hne : nome ≠ []) (hlen : nome.length ≤ 63) :
    contarPistasPorSuspeitoNaBST tabela raizPistas nome =
      (exibirPistas raizPistas).countP
        (fun k => decide (encontrarSuspeito tabela (some k) = nome)) ∧
    (∀ l : List Bytes, l.Perm (exibirPistas raizPistas) →
      l.countP (fun k => decide (encontrarSuspeito tabela (some k) = nome)) =
        contarPistasPorSuspeitoNaBST tabela raizPistas nome) ∧
    (2 ≤ contarPistasPorSuspeitoNaBST tabela raizPistas nome →
      verificarSuspeitoFinal tabela raizPistas (some nome) =
        .julgada .confirmada
          (contarPistasPorSuspeitoNaBST tabela raizPistas nome)) ∧
    (contarPistasPorSuspeitoNaBST tabela raizPistas nome = 1 →
      verificarSuspeitoFinal tabela raizPistas (some nome) =
        .julgada .fragil
          (contarPistasPorSuspeitoNaBST tabela raizPistas nome)) ∧
    (contarPistasPorSuspeitoNaBST tabela raizPistas nome = 0 →
      verificarSuspeitoFinal tabela raizPistas (some nome) =
        .julgada .semFundamento
          (contarPistasPorSuspeitoNaBST tabela raizPistas nome)) := by
  have htake : nome.take 63 = nome := List.take_of_length_le hlen
  refine ⟨contar_eq_countP tabela raizPistas nome, fun l hl => ?_, ?_, ?_, ?_⟩
  · rw [hl.countP_eq, contar_eq_countP tabela raizPistas nome]
  · intro h2
    simp only [verificarSuspeitoFinal, htake]
    rw [if_neg hne, if_pos h2]
  · intro h1
    simp only [verificarSuspeitoFinal, htake]
    rw [if_neg hne, if_neg (by omega), if_pos (by omega)]
  · intro h0
    simp only [verificarSuspeitoFinal, htake]
    rw [if_neg hne, if_neg (by omega), if_neg (by omega)]

/-- Witness for claim C1: two clues both pointing at suspect `[9]` give
count 2 and verdict Confirmed. -/
theorem claim_C1_witness :
    contarPistasPorSuspeitoNaBST tabelaExemplo pistasExemplo [9] =
      (exibirPistas pistasExemplo).countP
        (fun k => decide (encontrarSuspeito tabelaExemplo (some k) = [9])) ∧
    (exibirPistas pistasExemplo).countP
        (fun k => decide (encontrarSuspeito tabelaExemplo (some k) = [9])) =
      contarPistasPorSuspeitoNaBST tabelaExemplo pistasExemplo [9] ∧
    verificarSuspeitoFinal tabelaExemplo pistasExemplo (some [9]) =
      .julgada .confirmada
        (contarPistasPorSuspeitoNaBST tabelaExemplo pistasExemplo [9]) := by
  have h := claim_C1_accusation_pure_count tabelaExemplo pistasExemplo [9]
    (by decide) (by decide)
  exact ⟨h.1, h.2.1 (exibirPistas pistasExemplo) (List.Perm.refl _),
    h.2.2.1 (by decide)⟩

/-- Claim C2 counterexample: inserting the same 128-byte clue text twice
into the empty Clue Store stores its 127-byte `strncpy` truncation twice
(the second insert compares the full text against the truncated stored
copy, finds it greater, and allocates a fresh node), so the in-order
enumeration repeats one text — neither strictly ascending nor
duplicate-free. -/
theorem claim_C2_counterexample :
    exibirPistas
        (List.foldl inserirPista PistaTree.nil
          [List.replicate 128 97, List.replicate 128 97]) =
      [List.replicate 127 97, List.replicate 127 97] ∧
    ¬ (exibirPistas
        (List.foldl inserirPista PistaTree.nil
          [List.replicate 128 97, List.replicate 128 97])).Pairwise
        (fun a b => cmp a b = .lt) := by
  have he : exibirPistas
      (List.foldl inserirPista PistaTree.nil
        [List.replicate 128 97, List.replicate 128 97]) =
      [List.replicate 127 97, List.replicate 127 97] := by decide
  refine ⟨he, ?_⟩
  rw [he]
  intro hpw
  have h1 := (List.pairwise_cons.mp hpw).1 (List.replicate 127 97) (by simp)
  rw [cmp_self_eq] at h1
  exact absurd h1 (by simp)

/-- Claim C2 amended: for every sequence of clue texts that fit the
127-byte node buffer (true of every clue in the program, whose room
clues are at most 127 stored bytes), in-order enumeration of the store
built from them is strictly ascending under byte-wise comparison and
free of duplicates. -/
theorem claim_C2_amended (ps : List Bytes) (h : ∀ p ∈ ps, p.length ≤ 127) :
    (exibirPistas (ps.foldl inserirPista PistaTree.nil)).Pairwise
      (fun a b => cmp a b = .lt) ∧
    (exibirPistas (ps.foldl inserirPista PistaTree.nil)).Nodup := by
  have hpw := pairwise_exibir (isBST_foldl ps PistaTree.nil trivial h)
  refine ⟨hpw, hpw.imp ?_⟩
  intro a b hab hEq
  rw [hEq, cmp_self_eq] at hab
  exact absurd hab (by simp)

/-- Witness for claim C2 at the insertion sequence
`[[2], [1], [2]]` (out of order, with one duplicate). -/
theorem claim_C2_witness :
    (exibirPistas (List.foldl inserirPista PistaTree.nil
        [[2], [1], [2]])).Pairwise (fun a b => cmp a b = .lt) ∧
    (exibirPistas (List.foldl inserirPista PistaTree.nil
        [[2], [1], [2]])).Nodup :=
  claim_C2_amended [[2], [1], [2]] (by decide)

/-- Claim C7: reinserting a clue text that is already present byte-wise
in a Clue Store (any store built by a sequence of insertions from the
empty store) is a no-op — the store, hence its enumerated sequence, is
unchanged. -/
theorem claim_C7_duplicate_noop (ps : List Bytes) (x : Bytes)
    (hx : x ∈ exibirPistas (ps.foldl inserirPista PistaTree.nil)) :
    inserirPista (ps.foldl inserirPista PistaTree.nil) x =
      ps.foldl inserirPista PistaTree.nil :=
  inserirPista_mem_noop (wfT_foldl ps PistaTree.nil trivial) hx

/-- Witness for claim C7: reinserting `[5]` into the store built from
`[[5]]`. -/
theorem claim_C7_witness :
    inserirPista (List.foldl inserirPista PistaTree.nil [[5]]) [5] =
      List.foldl inserirPista PistaTree.nil [[5]] :=
  claim_C7_duplicate_noop [[5]] [5] (by decide)

/-- Claim C3 counterexample: upon arrival at a leaf room the
clue-collecting engine `explorarMansao` does not transition to Finished:
with no input available it blocks waiting for a navigation command
(status `aguardaEntrada`, not `encerrada`), i.e. it does read further
player input at a leaf.  (Only the novice `explorarSalas` has the leaf
check.) -/
theorem claim_C3_counterexample :
    (explorarMansao 1 (Sala.node [74] [75] .nil .nil) PistaTree.nil
        []).status = .aguardaEntrada ∧
    StatusExploracao.aguardaEntrada ≠ .encerrada := by
  exact ⟨rfl, by decide⟩

/-- Claim C3 amended: the novice engine `explorarSalas` does transition
to Finished on arrival at a leaf without reading input; the
clue-collecting engine `explorarMansao` instead prompts and reads a
command at a leaf, but exploration still never continues past the leaf:
every command either ends the exploration (`s`/`S`) or loops at the very
same leaf room. -/
theorem claim_C3_amended (nome pista : Bytes) (pistas : PistaTree)
    (entrada : List Nat) (c : Nat) (resto : List Nat) (fuel : Nat) :
    explorarSalas (fuel + 1) (SalaN.node nome .nil .nil) entrada =
      ⟨.encerrada, entrada⟩ ∧
    explorarMansao (fuel + 1) (Sala.node nome pista .nil .nil) pistas [] =
      ⟨.aguardaEntrada, inserirPista pistas pista, []⟩ ∧
    explorarMansao (fuel + 1) (Sala.node nome pista .nil .nil) pistas
        (c :: resto) =
      (if c = 115 ∨ c = 83 then
        ⟨.encerrada, inserirPista pistas pista, resto⟩
      else
        explorarMansao fuel (Sala.node nome pista .nil .nil)
          (inserirPista pistas pista) resto) := by
  refine ⟨by simp [explorarSalas], ?_, ?_⟩
  · simp only [explorarMansao]
    rw [colhePista_eq]
  · simp only [explorarMansao]
    rw [colhePista_eq]
    by_cases hs : c = 115 ∨ c = 83
    · have h1 : ¬ (c = 101 ∨ c = 69) := by rcases hs with rfl | rfl <;> decide
      have h2 : ¬ (c = 100 ∨ c = 68) := by rcases hs with rfl | rfl <;> decide
      simp [h1, h2, hs]
    · by_cases h1 : c = 101 ∨ c = 69
      · simp [h1, hs]
      · by_cases h2 : c = 100 ∨ c = 68
        · simp [h1, h2, hs]
        · simp [h1, h2, hs]

/-- Claim C4 counterexample: a whitespace-only accusation (a single
space, byte 32) is not aborted — it is classified normally (here
Unfounded with count 0 on an empty store), contradicting the claim that
whitespace-only input aborts the accusation phase. -/
theorem claim_C4_counterexample :
    verificarSuspeitoFinal inicializarHash PistaTree.nil (some [32]) =
      .julgada .semFundamento 0 ∧
    ResultadoAcusacao.julgada .semFundamento 0 ≠ .abortada := by
  exact ⟨rfl, by decide⟩

/-- Claim C4 amended: only an empty accusation input aborts the phase
without classification (and a failed read is reported as invalid input,
also without classification); a non-empty — in particular
whitespace-only — name is classified normally, never aborted.  The
accusation phase only reads the Clue Store and exploration state; the
model never returns a modified store. -/
theorem claim_C4_amended (tabela : Tabela) (raizPistas : PistaTree) :
    verificarSuspeitoFinal tabela raizPistas (some []) = .abortada ∧
    verificarSuspeitoFinal tabela raizPistas none = .entradaInvalida ∧
    ∀ texto : Bytes, texto ≠ [] →
      verificarSuspeitoFinal tabela raizPistas (some texto) ≠ .abortada ∧
      verificarSuspeitoFinal tabela raizPistas (some texto) ≠
        .entradaInvalida := by
  refine ⟨rfl, rfl, fun texto ht => ?_⟩
  have hne : texto.take 63 ≠ [] := by
    cases texto with
    | nil => exact absurd rfl ht
    | cons b r => simp
  simp only [verificarSuspeitoFinal]
  rw [if_neg hne]
  constructor
  · split_ifs <;> simp
  · split_ifs <;> simp

/-- Witness for claim C4 on the empty table and store, with the
whitespace-only input `" "`. -/
theorem claim_C4_witness :
    verificarSuspeitoFinal inicializarHash PistaTree.nil (some []) =
      .abortada ∧
    verificarSuspeitoFinal inicializarHash PistaTree.nil none =
      .entradaInvalida ∧
    verificarSuspeitoFinal inicializarHash PistaTree.nil (some [32]) ≠
      .abortada := by
  have h := claim_C4_amended inicializarHash PistaTree.nil
  exact ⟨h.1, h.2.1, (h.2.2 [32] (by decide)).1⟩

set_option maxRecDepth 40000 in
/-- Claim C5 counterexample: with a 128-byte clue text both inserted
entries persist, but each stores only the 127-byte `strncpy` truncation
of the key, so lookup of the full text matches neither entry and
returns the sentinel `"Desconhecido"` instead of the most recently
inserted suspect `[66]`. -/
theorem claim_C5_counterexample :
    encontrarSuspeito
        (inserirNaHash
          (inserirNaHash inicializarHash (some (List.replicate 128 97))
            (some [65]))
          (some (List.replicate 128 97)) (some [66]))
        (some (List.replicate 128 97)) = desconhecido ∧
    desconhecido ≠ [66] := by
  exact ⟨by decide, by decide⟩

/-- Claim C5 amended: for a clue text and suspect names that fit the
stored fields (127 and 63 bytes — true of all associations in the
program), inserting twice prepends both entries, head first, to the
chain of bucket `hash p`, leaves every other bucket unchanged, and
lookup of that clue text returns the most recently inserted suspect,
because the scan starts at the chain head. -/
theorem claim_C5_amended (tabela : Tabela) (p s1 s2 : Bytes)
    (hp : p.length ≤ 127) (h1 : s1.length ≤ 63) (h2 : s2.length ≤ 63) :
    inserirNaHash (inserirNaHash tabela (some p) (some s1)) (some p)
        (some s2) (hashFin p) =
      ⟨p, s2⟩ :: ⟨p, s1⟩ :: tabela (hashFin p) ∧
    (∀ j : Fin TAM_HASH, j ≠ hashFin p →
      inserirNaHash (inserirNaHash tabela (some p) (some s1)) (some p)
          (some s2) j = tabela j) ∧
    encontrarSuspeito
        (inserirNaHash (inserirNaHash tabela (some p) (some s1)) (some p)
          (some s2)) (some p) = s2 := by
  have hpt : p.take 127 = p := List.take_of_length_le hp
  have h1t : s1.take 63 = s1 := List.take_of_length_le h1
  have h2t : s2.take 63 = s2 := List.take_of_length_le h2
  have hchain : inserirNaHash (inserirNaHash tabela (some p) (some s1))
      (some p) (some s2) (hashFin p) =
      ⟨p, s2⟩ :: ⟨p, s1⟩ :: tabela (hashFin p) := by
    simp [inserirNaHash, hpt, h1t, h2t]
  refine ⟨hchain, fun j hj => ?_, ?_⟩
  · simp only [inserirNaHash]
    rw [if_neg hj, if_neg hj]
  · simp only [encontrarSuspeito]
    rw [hchain]
    simp [buscaBucket]

/-- Witness for claim C5 at clue `[1]` with suspects `[2]` then `[3]`
over the empty table; bucket 0 is untouched. -/
theorem claim_C5_witness :
    inserirNaHash (inserirNaHash inicializarHash (some [1]) (some [2]))
        (some [1]) (some [3]) (hashFin [1]) =
      ⟨[1], [3]⟩ :: ⟨[1], [2]⟩ :: inicializarHash (hashFin [1]) ∧
    inserirNaHash (inserirNaHash inicializarHash (some [1]) (some [2]))
        (some [1]) (some [3]) 0 = inicializarHash 0 ∧
    encontrarSuspeito
        (inserirNaHash (inserirNaHash inicializarHash (some [1]) (some [2]))
          (some [1]) (some [3])) (some [1]) = [3] := by
  have h := claim_C5_amended inicializarHash [1] [2] [3] (by decide)
    (by decide) (by decide)
  exact ⟨h.1, h.2.1 0 (by decide), h.2.2⟩

/-- Claim C9: on an invalid navigation input — an unrecognized command,
or a direction whose room is absent — the engine stays at the same room
and re-prompts (it consumes exactly that one command and loops at the
same room), and the Clue Store is unchanged: the clue re-inserted on
the repeated visit is an exact duplicate, a no-op (room clues fit the
127-byte buffer by construction). -/
theorem claim_C9_invalid_input (fuel : Nat) (nome pista : Bytes)
    (e d : Sala) (pistas : PistaTree) (c : Nat) (resto : List Nat)
    (hlen : pista.length ≤ 127)
    (hinv : (¬ (c = 101 ∨ c = 69 ∨ c = 100 ∨ c = 68 ∨ c = 115 ∨ c = 83)) ∨
      ((c = 101 ∨ c = 69) ∧ e = .nil) ∨
      ((c = 100 ∨ c = 68) ∧ d = .nil)) :
    explorarMansao (fuel + 1) (.node nome pista e d) pistas (c :: resto) =
      explorarMansao fuel (.node nome pista e d)
        (inserirPista pistas pista) resto ∧
    inserirPista (inserirPista pistas pista) pista =
      inserirPista pistas pista := by
  refine ⟨?_, inserirPista_idem hlen pistas⟩
  simp only [explorarMansao]
  rw [colhePista_eq]
  rcases hinv with hinv | ⟨hc, he⟩ | ⟨hc, hd⟩
  · rw [if_neg (by tauto), if_neg (by tauto), if_neg (by tauto)]
  · rw [if_pos hc, he, if_pos rfl]
  · rw [if_neg (by rcases hc with rfl | rfl <;> decide), if_pos hc, hd,
      if_pos rfl]

/-- Witness for claim C9: the unrecognized command `x` (byte 120) at a
leaf room. -/
theorem claim_C9_witness :
    explorarMansao 1 (Sala.node [1] [2] .nil .nil) PistaTree.nil [120] =
      explorarMansao 0 (Sala.node [1] [2] .nil .nil)
        (inserirPista PistaTree.nil [2]) [] ∧
    inserirPista (inserirPista PistaTree.nil [2]) [2] =
      inserirPista PistaTree.nil [2] :=
  claim_C9_invalid_input 0 [1] [2] .nil .nil PistaTree.nil 120 []
    (by decide) (by decide)

end DetectiveQuest
